import Mathlib

/-!
Shallow embedding of the transport core of the Terimor/bot-tg repository:
the `MessagePacker` request batcher, the `pseudoCancellable` task wrapper,
and the `Connection` state machine, translated from the JavaScript sources.

Buffers and payloads are modelled as `List Nat` symbol streams.  The
container limits (`MessageContainer.MAXIMUM_SIZE`, `MAXIMUM_LENGTH`,
`CONSTRUCTOR_ID`) and the per-entry overhead (`TLMessage.SIZE_OVERHEAD`)
live in `tl/core`, outside the given sources, so they are parameters of
the embedding, matching the spec's "configured" limits.
-/

namespace BotTg

/-- One JavaScript error relevant to the embedded code paths. -/
inductive JsError
  /-- `TypeError`: calling `state.promise.reject(...)` where `state.promise`
  is a plain `Promise`, which has no `reject` method. -/
  | typeErrorPromiseRejectUndefined
  /-- `TypeError`: reading `.cancel` of `undefined` in
  `Connection._cancelLoops` when the loop cancel handles were never set. -/
  | typeErrorCancelOfUndefined
  deriving DecidableEq, Repr

/-- The single-resolution outcome slot of a pending request
(`RequestState.promise` together with its `resolve`/`reject` functions). -/
inductive Outcome
  | pending
  | fulfilled (v : Nat)
  | rejected (reason : Nat)
  deriving DecidableEq, Repr

/-- Embedding of `telegram/network/RequestState`: `data` is the serialized
payload (`request.getBytes()`), `isRequest` is
`request.classType === "request"`, `afterId` is the value
`state.after?.msgId` read at packing time, and `msgId`/`containerId` start
unset.  `outcome` stands for the state of `promise` as controlled by the
state's own `resolve`/`reject` functions. -/
structure RequestState where
  data : List Nat
  isRequest : Bool
  afterId : Option Nat := none
  msgId : Option Nat := none
  containerId : Option Nat := none
  outcome : Outcome := .pending
  deriving DecidableEq, Repr

/-- Modelled from the spec: the session/sequencer collaborator
(`MTProtoState`, not under the given sources) carries the state needed to
hand out monotonically increasing sequence ids. -/
structure MTProtoState where
  nextId : Nat
  deriving DecidableEq, Repr

/-- Modelled from the spec: `writeDataAsMessage` (the collaborator's
`writeFramedEntry(buffer, payload, isRequest, afterId?) -> id`) appends a
self-delimited frame to the buffer — a header carrying the freshly
assigned sequence id and the payload length, then the payload — and
returns the id.  The spec fixes no byte layout for the frame header, so it
is modelled as two symbols. -/
def writeDataAsMessage (st : MTProtoState) (buffer : List Nat)
    (data : List Nat) (_isRequest : Bool) (_afterId : Option Nat) :
    MTProtoState × List Nat × Nat :=
  (⟨st.nextId + 1⟩, buffer ++ ([st.nextId, data.length] ++ data), st.nextId)

/-- Little-endian 4-byte encoding, as written by `writeUInt32LE` /
`writeInt32LE` (for the small nonnegative entry counts that occur here the
two agree). -/
def u32le (x : Nat) : List Nat :=
  [x % 256, x / 256 % 256, x / 2 ^ 16 % 256, x / 2 ^ 24 % 256]

/-- The 8-byte container header built in `MessagePacker.get` when the
batch has more than one entry: `writeUInt32LE(CONSTRUCTOR_ID, 0)` then
`writeInt32LE(batch.length, 4)`. -/
def containerHeader (ctorId count : Nat) : List Nat :=
  u32le ctorId ++ u32le count

/-- The drain loop of `MessagePacker.get`:

`while (this._queue.length && batch.length <= MAXIMUM_LENGTH)` shift the
next state, add `state.data.length + SIZE_OVERHEAD` to the running size;
if the running size stays within `MAXIMUM_SIZE`, frame the payload via the
session collaborator (assigning `msgId`) and push the state onto the
batch; otherwise, if the batch is nonempty, unshift the state back and
stop; otherwise the code executes `state.promise.reject(...)`, and since
`promise` is a plain `Promise` without a `reject` method this throws a
`TypeError` out of `get`. -/
def getLoop (maxSize maxLength overhead : Nat) (mtp : MTProtoState)
    (queue : List RequestState) (buffer : List Nat)
    (batch : List RequestState) (size : Nat) :
    Except JsError (MTProtoState × List Nat × List RequestState × List RequestState) :=
  match queue with
  | [] => .ok (mtp, buffer, batch, [])
  | s :: rest =>
    if batch.length ≤ maxLength then
      let size' := size + s.data.length + overhead
      if size' ≤ maxSize then
        let r := writeDataAsMessage mtp buffer s.data s.isRequest s.afterId
        getLoop maxSize maxLength overhead r.1 rest r.2.1
          (batch ++ [{ s with msgId := some r.2.2 }]) size'
      else if batch.length ≠ 0 then
        .ok (mtp, buffer, batch, s :: rest)
      else
        .error .typeErrorPromiseRejectUndefined
    else
      .ok (mtp, buffer, batch, s :: rest)

/-- Result of a successful `MessagePacker.get`: `none` models the
`return null` of an empty batch, `some (batch, data)` models the returned
`{ batch, data }` record.  The remaining queue is returned alongside. -/
abbrev GetResult :=
  MTProtoState × Option (List RequestState × List Nat) × List RequestState

/-- Embedding of `MessagePacker.get` from the point where the queue has
been observed (the `await this._ready` suspension has already completed):
run the drain loop on the current queue, then, if the batch has more than
one entry, prepend the container header to the accumulated per-entry
frames, frame the result as its own message through the session
collaborator (assigning the container its own sequence id) and stamp every
batch entry's `containerId` with that id. -/
def MessagePacker.get (maxSize maxLength overhead ctorId : Nat)
    (mtp : MTProtoState) (queue : List RequestState) :
    Except JsError GetResult :=
  match getLoop maxSize maxLength overhead mtp queue [] [] 0 with
  | .error e => .error e
  | .ok (mtp', buffer, batch, rest) =>
    if batch.length = 0 then
      .ok (mtp', none, rest)
    else if 1 < batch.length then
      let data := containerHeader ctorId batch.length ++ buffer
      let r := writeDataAsMessage mtp' [] data false none
      .ok (r.1, some (batch.map fun s => { s with containerId := some r.2.2 }, r.2.1), rest)
    else
      .ok (mtp', some (batch, buffer), rest)

/-- The sum of `state.data.length + SIZE_OVERHEAD` over a batch: the
"total encoded size" the size invariant speaks about. -/
def batchSize (overhead : Nat) (batch : List RequestState) : Nat :=
  (batch.map fun s => s.data.length + overhead).sum

end BotTg

namespace BotTg

/-- Helper for constructing queue entries: a fresh `RequestState` as built
by the `RequestState` constructor from a serialized payload. -/
def mkState (payload : List Nat) : RequestState :=
  { data := payload, isRequest := true }

/-- Entry count of the batch inside a `get` result (`0` when `get` threw
or returned `null`). -/
def batchLenOf (r : Except JsError GetResult) : Nat :=
  match r with
  | .ok (_, some (batch, _), _) => batch.length
  | _ => 0

theorem batchSize_append (ov : Nat) (l1 l2 : List RequestState) :
    batchSize ov (l1 ++ l2) = batchSize ov l1 + batchSize ov l2 := by
  simp [batchSize]

theorem batchSize_map_containerId (ov c : Nat) (l : List RequestState) :
    batchSize ov (l.map fun s => { s with containerId := some c }) =
      batchSize ov l := by
  induction l with
  | nil => rfl
  | cons s t ih => simp [batchSize, List.map_cons] at ih ⊢; omega

theorem getLoop_size_le (maxSize maxLength overhead : Nat)
    (queue : List RequestState) :
    ∀ (mtp : MTProtoState) (buffer : List Nat) (batch : List RequestState)
      (size : Nat) (mtp' : MTProtoState) (buffer' : List Nat)
      (batch' rest : List RequestState),
      getLoop maxSize maxLength overhead mtp queue buffer batch size =
        .ok (mtp', buffer', batch', rest) →
      batchSize overhead batch = size → size ≤ maxSize →
      batchSize overhead batch' ≤ maxSize := by
  induction queue with
  | nil =>
    intro mtp buffer batch size mtp' buffer' batch' rest h hsum hle
    simp only [getLoop, Except.ok.injEq, Prod.mk.injEq] at h
    obtain ⟨-, -, rfl, -⟩ := h
    omega
  | cons s tail ih =>
    intro mtp buffer batch size mtp' buffer' batch' rest h hsum hle
    simp only [getLoop] at h
    split at h
    · split at h
      · exact ih _ _ _ _ _ _ _ _ h
          (by rw [batchSize_append, hsum]; simp [batchSize]; omega) (by omega)
      · split at h
        · simp only [Except.ok.injEq, Prod.mk.injEq] at h
          obtain ⟨-, -, rfl, -⟩ := h
          omega
        · simp at h
    · simp only [Except.ok.injEq, Prod.mk.injEq] at h
      obtain ⟨-, -, rfl, -⟩ := h
      omega

theorem getLoop_length_le (maxSize maxLength overhead : Nat)
    (queue : List RequestState) :
    ∀ (mtp : MTProtoState) (buffer : List Nat) (batch : List RequestState)
      (size : Nat) (mtp' : MTProtoState) (buffer' : List Nat)
      (batch' rest : List RequestState),
      getLoop maxSize maxLength overhead mtp queue buffer batch size =
        .ok (mtp', buffer', batch', rest) →
      batch.length ≤ maxLength + 1 →
      batch'.length ≤ maxLength + 1 := by
  induction queue with
  | nil =>
    intro mtp buffer batch size mtp' buffer' batch' rest h hlen
    simp only [getLoop, Except.ok.injEq, Prod.mk.injEq] at h
    obtain ⟨-, -, rfl, -⟩ := h
    exact hlen
  | cons s tail ih =>
    intro mtp buffer batch size mtp' buffer' batch' rest h hlen
    simp only [getLoop] at h
    split at h
    case isTrue hcond =>
      split at h
      · exact ih _ _ _ _ _ _ _ _ h (by simp; omega)
      · split at h
        · simp only [Except.ok.injEq, Prod.mk.injEq] at h
          obtain ⟨-, -, rfl, -⟩ := h
          exact hlen
        · simp at h
    case isFalse hcond =>
      simp only [Except.ok.injEq, Prod.mk.injEq] at h
      obtain ⟨-, -, rfl, -⟩ := h
      exact hlen

end BotTg

namespace BotTg

theorem get_ok_batch (maxSize maxLength overhead ctorId : Nat)
    (mtp : MTProtoState) (queue : List RequestState)
    (mtp' : MTProtoState) (batch : List RequestState) (data : List Nat)
    (rest : List RequestState)
    (h : MessagePacker.get maxSize maxLength overhead ctorId mtp queue =
      .ok (mtp', some (batch, data), rest)) :
    ∃ m2 buf b,
      getLoop maxSize maxLength overhead mtp queue [] [] 0 =
        .ok (m2, buf, b, rest) ∧
      (batch = b ∨
        ∃ c, batch = b.map fun s => { s with containerId := some c }) := by
  unfold MessagePacker.get at h
  cases hg : getLoop maxSize maxLength overhead mtp queue [] [] 0 with
  | error e => rw [hg] at h; simp at h
  | ok r =>
    obtain ⟨m2, buf, b, rst⟩ := r
    rw [hg] at h
    simp only at h
    split at h
    · simp at h
    · split at h
      · simp only [Except.ok.injEq, Prod.mk.injEq, Option.some.injEq] at h
        obtain ⟨h1, ⟨h2, h3⟩, h4⟩ := h
        subst h4
        exact ⟨m2, buf, b, rfl, Or.inr ⟨_, h2.symm⟩⟩
      · simp only [Except.ok.injEq, Prod.mk.injEq, Option.some.injEq] at h
        obtain ⟨h1, ⟨h2, h3⟩, h4⟩ := h
        subst h4
        exact ⟨m2, buf, b, rfl, Or.inl h2.symm⟩

/-- C1: for every queue of pending requests, a batch returned by
`MessagePacker.get` has a total encoded size — the sum over its entries of
`entry.data.length` plus the fixed per-entry overhead — that never exceeds
the configured maximum packet size. -/
theorem batch_total_size_le_maximum
    (maxSize maxLength overhead ctorId : Nat)
    (mtp : MTProtoState) (queue : List RequestState)
    (mtp' : MTProtoState) (batch : List RequestState) (data : List Nat)
    (rest : List RequestState)
    (h : MessagePacker.get maxSize maxLength overhead ctorId mtp queue =
      .ok (mtp', some (batch, data), rest)) :
    batchSize overhead batch ≤ maxSize := by
  obtain ⟨m2, buf, b, hg, hb⟩ :=
    get_ok_batch maxSize maxLength overhead ctorId mtp queue mtp' batch data rest h
  have hle :=
    getLoop_size_le maxSize maxLength overhead queue mtp [] [] 0 m2 buf b rest
      hg rfl (Nat.zero_le _)
  rcases hb with rfl | ⟨c, rfl⟩
  · exact hle
  · rw [batchSize_map_containerId]; exact hle

/-- Witness for C1 at a concrete input: a single 3-symbol payload under
maximum size 25 and overhead 4. -/
theorem batch_total_size_le_maximum_witness :
    batchSize 4
      [{ data := [1, 2, 3], isRequest := true, afterId := none,
         msgId := some 0, containerId := none, outcome := .pending }] ≤ 25 :=
  batch_total_size_le_maximum 25 100 4 7 ⟨0⟩ [mkState [1, 2, 3]] ⟨1⟩
    [{ data := [1, 2, 3], isRequest := true, afterId := none,
       msgId := some 0, containerId := none, outcome := .pending }]
    [0, 3, 1, 2, 3] [] rfl

set_option maxRecDepth 10000 in
/-- C2 counterexample: the drain loop's guard is
`batch.length <= MAXIMUM_LENGTH`, checked before the shift, so the batch
can grow to `MAXIMUM_LENGTH + 1` entries.  With the configured maximum
entry count 100 and 101 small queued entries, `get` returns a batch of 101
entries. -/
theorem batch_count_can_exceed_maximum :
    100 < batchLenOf (MessagePacker.get 10000 100 4 7 ⟨0⟩
      ((List.range 101).map fun i => mkState [i])) := by
  decide

/-- C2 amended: a batch returned by `MessagePacker.get` never contains
more than the configured maximum container entry count *plus one*
entries. -/
theorem batch_count_le_maximum_succ
    (maxSize maxLength overhead ctorId : Nat)
    (mtp : MTProtoState) (queue : List RequestState)
    (mtp' : MTProtoState) (batch : List RequestState) (data : List Nat)
    (rest : List RequestState)
    (h : MessagePacker.get maxSize maxLength overhead ctorId mtp queue =
      .ok (mtp', some (batch, data), rest)) :
    batch.length ≤ maxLength + 1 := by
  obtain ⟨m2, buf, b, hg, hb⟩ :=
    get_ok_batch maxSize maxLength overhead ctorId mtp queue mtp' batch data rest h
  have hle :=
    getLoop_length_le maxSize maxLength overhead queue mtp [] [] 0 m2 buf b rest
      hg (Nat.le_add_left 0 _)
  rcases hb with rfl | ⟨c, rfl⟩
  · exact hle
  · rw [List.length_map]; exact hle

/-- Witness for the amended C2 at a concrete input. -/
theorem batch_count_le_maximum_succ_witness :
    ([{ data := [1, 2, 3], isRequest := true, afterId := none,
        msgId := some 0, containerId := none,
        outcome := .pending }] : List RequestState).length ≤ 100 + 1 :=
  batch_count_le_maximum_succ 25 100 4 7 ⟨0⟩ [mkState [1, 2, 3]] ⟨1⟩
    [{ data := [1, 2, 3], isRequest := true, afterId := none,
       msgId := some 0, containerId := none, outcome := .pending }]
    [0, 3, 1, 2, 3] [] rfl

end BotTg

namespace BotTg

/-- The remaining queue of a `get` result (empty when `get` threw). -/
def restOf (r : Except JsError GetResult) : List RequestState :=
  match r with
  | .ok (_, _, rest) => rest
  | .error _ => []

/-- The mutable fields of a `MessagePacker` touched by `append`, `extend`
and `rejectAll`: `_queue` and `_pendingStates`. -/
structure MessagePackerState where
  queue : List RequestState
  pendingStates : List RequestState
  deriving DecidableEq, Repr

/-- The `MessagePacker` constructor: `this._queue = []` and
`this._pendingStates = []`. -/
def MessagePacker.init : MessagePackerState :=
  { queue := [], pendingStates := [] }

/-- `MessagePacker.append(state)`: pushes the state onto `_queue` (and
resolves the ready promise, which has no effect on these fields);
`_pendingStates` is not touched. -/
def MessagePacker.append (p : MessagePackerState) (s : RequestState) :
    MessagePackerState :=
  { p with queue := p.queue ++ [s] }

/-- `MessagePacker.extend(states)`: `append` for each state in order. -/
def MessagePacker.extend (p : MessagePackerState) (ss : List RequestState) :
    MessagePackerState :=
  ss.foldl MessagePacker.append p

/-- `MessagePacker.rejectAll()`: rejects the outcome of every entry of
`_pendingStates`; the returned list is the list of request states whose
outcome the call rejects. -/
def MessagePacker.rejectAll (p : MessagePackerState) : List RequestState :=
  p.pendingStates

theorem extend_fields (ss : List RequestState) :
    ∀ p : MessagePackerState,
      (MessagePacker.extend p ss).queue = p.queue ++ ss ∧
      (MessagePacker.extend p ss).pendingStates = p.pendingStates := by
  induction ss with
  | nil => intro p; simp [MessagePacker.extend]
  | cons s t ih =>
    intro p
    obtain ⟨h1, h2⟩ := ih (MessagePacker.append p s)
    refine ⟨?_, ?_⟩
    · rw [MessagePacker.extend, List.foldl_cons, ← MessagePacker.extend, h1]
      simp [MessagePacker.append]
    · rw [MessagePacker.extend, List.foldl_cons, ← MessagePacker.extend, h2]
      rfl

/-- C3: `rejectAll` only iterates `_pendingStates`, and no code path of
the packer ever adds to `_pendingStates` — `append`/`extend` only push
onto `_queue`.  So after appending any list of requests to a fresh packer,
every one of them sits live in the queue, yet `rejectAll` rejects the
outcome of none of them. -/
theorem rejectAll_rejects_nothing (ss : List RequestState) :
    (MessagePacker.extend MessagePacker.init ss).queue = ss ∧
    MessagePacker.rejectAll (MessagePacker.extend MessagePacker.init ss) = [] := by
  obtain ⟨h1, h2⟩ := extend_fields ss MessagePacker.init
  exact ⟨by simpa [MessagePacker.init] using h1,
    by simpa [MessagePacker.rejectAll, MessagePacker.init] using h2⟩

/-- C4: the oversized-entry branch of `get` evaluates
`state.promise.reject(...)`, but `RequestState.promise` is a plain
`Promise`, which has no `reject` method, so `get` throws a `TypeError`
instead of rejecting that entry's outcome and batching the later smaller
entry.  Concrete failing input: maximum size 25, overhead 4, a 30-symbol
head payload followed by a 5-symbol payload. -/
theorem oversized_entry_throws_typeerror :
    MessagePacker.get 25 100 4 7 ⟨0⟩
      [mkState (List.replicate 30 1), mkState (List.replicate 5 2)] =
      .error .typeErrorPromiseRejectUndefined := rfl

/-- C5 counterexample: with payloads of sizes 10, 10, 10, maximum packet
size 25 and overhead 4, a single `get` does not return the first two
entries: the running size after the second entry is 28 > 25, so the second
entry is pushed back, the batch holds only the first entry, and the queue
keeps entries two and three. -/
theorem scenario_batch_is_not_first_two :
    batchLenOf (MessagePacker.get 25 100 4 7 ⟨0⟩
      [mkState (List.replicate 10 1), mkState (List.replicate 10 2),
       mkState (List.replicate 10 3)]) = 1 ∧
    restOf (MessagePacker.get 25 100 4 7 ⟨0⟩
      [mkState (List.replicate 10 1), mkState (List.replicate 10 2),
       mkState (List.replicate 10 3)]) =
      [mkState (List.replicate 10 2), mkState (List.replicate 10 3)] := by
  exact ⟨rfl, rfl⟩

/-- C5 amended: in that scenario a single `get` returns a batch containing
exactly the first entry (not wrapped as a container, the batch being a
singleton), and leaves the second and third entries queued in order for
the next call. -/
theorem scenario_batch_is_first_entry_only :
    MessagePacker.get 25 100 4 7 ⟨0⟩
      [mkState (List.replicate 10 1), mkState (List.replicate 10 2),
       mkState (List.replicate 10 3)] =
      .ok (⟨1⟩,
        some ([{ data := List.replicate 10 1, isRequest := true,
                 afterId := none, msgId := some 0, containerId := none,
                 outcome := .pending }],
          [0, 10] ++ List.replicate 10 1),
        [mkState (List.replicate 10 2), mkState (List.replicate 10 3)]) := by
  rfl

end BotTg

namespace BotTg

/-- A JavaScript rejection reason: the distinguished `Cancellation` error
of the cancellable-promise library, or any ordinary reason. -/
inductive JsReason
  | cancellation
  | other (e : Nat)
  deriving DecidableEq, Repr

/-- Settlement state of a JavaScript promise: single-resolution, first
settle wins. -/
inductive PromiseSettle
  | pending
  | ok (v : Nat)
  | err (e : JsReason)
  deriving DecidableEq, Repr

/-- `resolve(v)`: settles a pending promise, a no-op on a settled one. -/
def settleOk (p : PromiseSettle) (v : Nat) : PromiseSettle :=
  match p with
  | .pending => .ok v
  | _ => p

/-- `reject(e)`: settles a pending promise, a no-op on a settled one. -/
def settleErr (p : PromiseSettle) (e : JsReason) : PromiseSettle :=
  match p with
  | .pending => .err e
  | _ => p

/-- The closure state of `pseudoCancellable(promise)`: the `canceled`
flag, the settlement of the returned (outer) promise, whether `rejectFn`
still points at the outer `reject` (it is swapped for `noop` in the
not-canceled fulfillment path), and whether the underlying promise has
settled (the underlying operation ran to completion regardless of
cancellation). -/
structure PseudoState where
  canceled : Bool
  outer : PromiseSettle
  rejectFnActive : Bool
  underlyingSettled : Bool
  deriving DecidableEq, Repr

/-- Events acting on a `pseudoCancellable` wrapper: the `cancel()` call,
or the underlying promise settling. -/
inductive PseudoEvent
  | cancel
  | underlyingFulfill (v : Nat)
  | underlyingReject (e : Nat)
  deriving DecidableEq, Repr

/-- Whether the event is a settlement of the underlying promise. -/
def PseudoEvent.isSettle : PseudoEvent → Bool
  | .cancel => false
  | _ => true

/-- State right after `pseudoCancellable(promise)` returns. -/
def pseudoInit : PseudoState :=
  { canceled := false, outer := .pending, rejectFnActive := true,
    underlyingSettled := false }

/-- One event of `pseudoCancellable`, following the source:
`cancel()` sets `canceled = true` and calls `rejectFn(new Cancellation())`
(the real `reject` while `rejectFn` has not been swapped for `noop`, and
rejecting a settled promise is a no-op); the underlying `then` handlers
deliver `resolve(result)` / `reject(e)` to the outer promise only when
`!canceled`, the fulfillment path also swapping `rejectFn` for `noop`. -/
def pseudoStep (s : PseudoState) : PseudoEvent → PseudoState
  | .cancel =>
    { s with
      canceled := true
      outer :=
        (if s.rejectFnActive then settleErr s.outer .cancellation else s.outer) }
  | .underlyingFulfill v =>
    if s.canceled then { s with underlyingSettled := true }
    else
      { s with
        outer := settleOk s.outer v
        rejectFnActive := false
        underlyingSettled := true }
  | .underlyingReject e =>
    if s.canceled then { s with underlyingSettled := true }
    else
      { s with
        outer := settleErr s.outer (.other e)
        underlyingSettled := true }

/-- Run a `pseudoCancellable` wrapper from its initial state through a
sequence of events. -/
def runPseudo (es : List PseudoEvent) : PseudoState :=
  es.foldl pseudoStep pseudoInit

theorem pseudoStep_canceled_outer (s : PseudoState) (e : PseudoEvent)
    (hc : s.canceled = true) (ho : s.outer = .err .cancellation) :
    (pseudoStep s e).canceled = true ∧
    (pseudoStep s e).outer = .err .cancellation := by
  cases e with
  | cancel =>
    refine ⟨by simp [pseudoStep], ?_⟩
    simp [pseudoStep, ho, settleErr]
  | underlyingFulfill v => simp [pseudoStep, hc, ho]
  | underlyingReject e => simp [pseudoStep, hc, ho]

theorem foldl_pseudoStep_canceled (post : List PseudoEvent) :
    ∀ s : PseudoState, s.canceled = true → s.outer = .err .cancellation →
      (post.foldl pseudoStep s).canceled = true ∧
      (post.foldl pseudoStep s).outer = .err .cancellation := by
  induction post with
  | nil => intro s hc ho; exact ⟨hc, ho⟩
  | cons e t ih =>
    intro s hc ho
    obtain ⟨hc', ho'⟩ := pseudoStep_canceled_outer s e hc ho
    exact ih (pseudoStep s e) hc' ho'

theorem foldl_pseudoStep_no_settle (pre : List PseudoEvent) :
    ∀ s : PseudoState, (∀ e ∈ pre, e.isSettle = false) →
      s.rejectFnActive = true →
      (s.outer = .pending ∨ s.outer = .err .cancellation) →
      (pre.foldl pseudoStep s).rejectFnActive = true ∧
      ((pre.foldl pseudoStep s).outer = .pending ∨
        (pre.foldl pseudoStep s).outer = .err .cancellation) := by
  induction pre with
  | nil => intro s _ hr ho; exact ⟨hr, ho⟩
  | cons e t ih =>
    intro s hall hr ho
    have he : e.isSettle = false := hall e (List.mem_cons_self e t)
    have ht : ∀ x ∈ t, x.isSettle = false := fun x hx =>
      hall x (List.mem_cons_of_mem e hx)
    cases e with
    | cancel =>
      refine ih (pseudoStep s .cancel) ht (by simp [pseudoStep, hr]) ?_
      rcases ho with h | h <;> simp [pseudoStep, hr, h, settleErr]
    | underlyingFulfill v => simp [PseudoEvent.isSettle] at he
    | underlyingReject e => simp [PseudoEvent.isSettle] at he

theorem pseudoStep_settle_settled (s : PseudoState) (e : PseudoEvent)
    (he : e.isSettle = true) :
    (pseudoStep s e).underlyingSettled = true := by
  cases e with
  | cancel => simp [PseudoEvent.isSettle] at he
  | underlyingFulfill v => simp [pseudoStep]; split <;> simp
  | underlyingReject e => simp [pseudoStep]; split <;> simp

theorem foldl_pseudoStep_settled (post : List PseudoEvent) :
    ∀ s : PseudoState, s.underlyingSettled = true →
      (post.foldl pseudoStep s).underlyingSettled = true := by
  induction post with
  | nil => intro s h; exact h
  | cons e t ih =>
    intro s h
    refine ih (pseudoStep s e) ?_
    cases e with
    | cancel => simpa [pseudoStep] using h
    | underlyingFulfill v => simp [pseudoStep]; split <;> simp
    | underlyingReject e => simp [pseudoStep]; split <;> simp

theorem foldl_pseudoStep_settle_mem (post : List PseudoEvent) :
    ∀ s : PseudoState, (∃ e ∈ post, e.isSettle = true) →
      (post.foldl pseudoStep s).underlyingSettled = true := by
  induction post with
  | nil => intro s h; simp at h
  | cons e t ih =>
    intro s h
    rcases h with ⟨x, hx, hsx⟩
    rcases List.mem_cons.mp hx with rfl | hxt
    · exact foldl_pseudoStep_settled t (pseudoStep s x)
        (pseudoStep_settle_settled s x hsx)
    · exact ih (pseudoStep s e) ⟨x, hxt, hsx⟩

/-- C8: for a `pseudoCancellable` wrapper, if `cancel()` happens before
the underlying promise settles, the returned promise rejects with the
distinguished `Cancellation` error, later settlements of the underlying
promise are never delivered to the waiter (the outer settlement stays the
`Cancellation` rejection), and the underlying operation is not aborted —
it still runs to completion if a settlement event occurs. -/
theorem pseudo_cancel_before_settle (pre post : List PseudoEvent)
    (hpre : ∀ e ∈ pre, e.isSettle = false) :
    (runPseudo (pre ++ .cancel :: post)).outer = .err .cancellation ∧
    (runPseudo (pre ++ .cancel :: post)).canceled = true ∧
    ((∃ e ∈ post, e.isSettle = true) →
      (runPseudo (pre ++ .cancel :: post)).underlyingSettled = true) := by
  unfold runPseudo
  rw [List.foldl_append]
  obtain ⟨hr, ho⟩ := foldl_pseudoStep_no_settle pre pseudoInit hpre rfl (Or.inl rfl)
  set s1 := pre.foldl pseudoStep pseudoInit
  have hcstep : (pseudoStep s1 .cancel).canceled = true := by simp [pseudoStep]
  have hostep : (pseudoStep s1 .cancel).outer = .err .cancellation := by
    rcases ho with h | h <;> simp [pseudoStep, hr, h, settleErr]
  rw [List.foldl_cons]
  obtain ⟨hc', ho'⟩ :=
    foldl_pseudoStep_canceled post (pseudoStep s1 .cancel) hcstep hostep
  exact ⟨ho', hc', fun hex =>
    foldl_pseudoStep_settle_mem post (pseudoStep s1 .cancel) hex⟩

/-- Witness for C8 at a concrete input: no events before the cancel, a
single underlying fulfillment after it. -/
theorem pseudo_cancel_before_settle_witness :
    (runPseudo ([] ++ .cancel :: [.underlyingFulfill 5])).outer =
        .err .cancellation ∧
      (runPseudo ([] ++ .cancel :: [.underlyingFulfill 5])).canceled = true ∧
      ((∃ e ∈ [PseudoEvent.underlyingFulfill 5], e.isSettle = true) →
        (runPseudo ([] ++ .cancel :: [.underlyingFulfill 5])).underlyingSettled =
          true) :=
  pseudo_cancel_before_settle [] [.underlyingFulfill 5] (by simp)

end BotTg

namespace BotTg

/-- The cancel handle a loop iteration installs:
`this.sendCancel = pseudoCancellable(...)` / `this.recvCancel = ...`.
Only its `canceled` flag matters for the connection state machine. -/
structure CancelHandle where
  canceled : Bool
  deriving DecidableEq, Repr

/-- The `Connection` fields driving `connect`/`disconnect`:
`_connected`, the two loop cancel handles (unset until the corresponding
loop body runs), and whether the socket has been closed. -/
structure Connection where
  connected : Bool
  sendCancel : Option CancelHandle
  recvCancel : Option CancelHandle
  socketClosed : Bool
  deriving DecidableEq, Repr

/-- State after the `Connection` constructor: not connected, no loop
tasks, hence `sendCancel` and `recvCancel` are `undefined`. -/
def Connection.init : Connection :=
  { connected := false, sendCancel := none, recvCancel := none,
    socketClosed := false }

/-- `Connection.connect()`: `_connect()` opens the socket and initializes
the codec, `_connected` is set, and the two loops are started; each loop
body synchronously installs its pseudo-cancellable handle before
suspending on its queue pop, so after `connect()` both handles are set. -/
def Connection.connect (c : Connection) : Connection :=
  { c with
    connected := true
    socketClosed := false
    sendCancel := some ⟨false⟩
    recvCancel := some ⟨false⟩ }

/-- `Connection._cancelLoops()`:
`this.recvCancel.cancel(); this.sendCancel.cancel();` — reading `.cancel`
of an unset handle throws a `TypeError`. -/
def Connection.cancelLoops (c : Connection) : Except JsError Connection :=
  match c.recvCancel with
  | none => .error .typeErrorCancelOfUndefined
  | some r =>
    match c.sendCancel with
    | none => .error .typeErrorCancelOfUndefined
    | some s =>
      .ok
        { c with
          recvCancel := some { r with canceled := true }
          sendCancel := some { s with canceled := true } }

/-- `Connection.disconnect()`: sets `_connected = false`, calls
`_cancelLoops()` (outside any try), then closes the socket best-effort
(errors from `close` are logged, not propagated). -/
def Connection.disconnect (c : Connection) : Except JsError Connection :=
  match Connection.cancelLoops { c with connected := false } with
  | .error e => .error e
  | .ok c' => .ok { c' with socketClosed := true }

/-- C9 counterexample: on a `Connection` on which `connect()` was never
called, `disconnect()` is not a no-op — `_cancelLoops` reads `.cancel` of
the undefined `recvCancel` handle and throws a `TypeError`. -/
theorem disconnect_before_connect_throws :
    Connection.init.disconnect = .error .typeErrorCancelOfUndefined := rfl

/-- C9 amended: once `connect()` has run (so both loop cancel handles are
installed), `disconnect()` succeeds, and a second `disconnect()` also
succeeds and returns the very same state — idempotent with no observable
effect beyond the first call. -/
theorem disconnect_idempotent_after_connect (c : Connection) :
    (Connection.connect c).disconnect =
      .ok { connected := false, sendCancel := some ⟨true⟩,
            recvCancel := some ⟨true⟩, socketClosed := true } ∧
    Connection.disconnect
        { connected := false, sendCancel := some ⟨true⟩,
          recvCancel := some ⟨true⟩, socketClosed := true } =
      .ok { connected := false, sendCancel := some ⟨true⟩,
            recvCancel := some ⟨true⟩, socketClosed := true } :=
  ⟨rfl, rfl⟩

/-- Outcomes of `Connection.recv()`: a returned payload, the
`"Not connected"` throw, or still blocked on the inbound queue when the
observed iterations run out. -/
inductive RecvOutcome
  | ok (bytes : List Nat)
  | notConnected
  | blocked
  deriving DecidableEq, Repr

/-- Embedding of `Connection.recv()`: each loop iteration observes the
`_connected` flag and, when still connected, the value popped from
`_recvArray` (`none` models the `undefined` wake-up marker).  A popped
value is returned only if `result && result.length` holds; otherwise the
loop continues; once `_connected` is false the `"Not connected"` error is
thrown. -/
def Connection.recv : List (Bool × Option (List Nat)) → RecvOutcome
  | [] => .blocked
  | (conn, res) :: rest =>
    if conn then
      match res with
      | some bytes => if bytes.length ≠ 0 then .ok bytes else Connection.recv rest
      | none => Connection.recv rest
    else .notConnected

/-- C10: every normal return of `Connection.recv()` yields a non-empty
payload; an `undefined` or empty marker popped while still connected is
skipped, never returned; and once the connection is observed disconnected,
`recv` throws the `"Not connected"` error. -/
theorem recv_returns_nonempty_or_throws :
    (∀ (trace : List (Bool × Option (List Nat))) (bytes : List Nat),
      Connection.recv trace = .ok bytes → bytes ≠ []) ∧
    (∀ rest : List (Bool × Option (List Nat)),
      Connection.recv ((true, none) :: rest) = Connection.recv rest) ∧
    (∀ rest : List (Bool × Option (List Nat)),
      Connection.recv ((true, some []) :: rest) = Connection.recv rest) ∧
    (∀ (rest : List (Bool × Option (List Nat))) (res : Option (List Nat)),
      Connection.recv ((false, res) :: rest) = .notConnected) := by
  refine ⟨?_, fun rest => rfl, fun rest => rfl, fun rest res => rfl⟩
  intro trace
  induction trace with
  | nil => intro bytes h; simp [Connection.recv] at h
  | cons p rest ih =>
    intro bytes h
    obtain ⟨conn, res⟩ := p
    cases conn with
    | false => simp [Connection.recv] at h
    | true =>
      cases res with
      | none => exact ih bytes (by simpa [Connection.recv] using h)
      | some v =>
        by_cases hv : v.length ≠ 0
        · simp [Connection.recv, hv] at h
          subst h
          simpa using hv
        · exact ih bytes (by simpa [Connection.recv, hv] using h)

/-- Witness for C10 at a concrete input: a wake-up marker and an empty
payload are skipped, the 2-byte payload that follows is returned and is
non-empty. -/
theorem recv_returns_nonempty_or_throws_witness :
    ([1, 2] : List Nat) ≠ [] :=
  recv_returns_nonempty_or_throws.1
    [(true, none), (true, some []), (true, some [1, 2])] [1, 2] rfl

end BotTg

namespace BotTg

/-- The payload bytes of a request state, the identity that FIFO order is
stated over (msgId/containerId stamping does not touch it). -/
def payloadOf (s : RequestState) : List Nat :=
  s.data

theorem getLoop_payloads (maxSize maxLength overhead : Nat)
    (queue : List RequestState) :
    ∀ (mtp : MTProtoState) (buffer : List Nat) (batch : List RequestState)
      (size : Nat) (mtp' : MTProtoState) (buffer' : List Nat)
      (batch' rest : List RequestState),
      getLoop maxSize maxLength overhead mtp queue buffer batch size =
        .ok (mtp', buffer', batch', rest) →
      batch'.map payloadOf ++ rest.map payloadOf =
        batch.map payloadOf ++ queue.map payloadOf := by
  induction queue with
  | nil =>
    intro mtp buffer batch size mtp' buffer' batch' rest h
    simp only [getLoop, Except.ok.injEq, Prod.mk.injEq] at h
    obtain ⟨-, -, rfl, rfl⟩ := h
    simp
  | cons s tail ih =>
    intro mtp buffer batch size mtp' buffer' batch' rest h
    simp only [getLoop] at h
    split at h
    · split at h
      · have := ih _ _ _ _ _ _ _ _ h
        simpa [payloadOf] using this
      · split at h
        · simp only [Except.ok.injEq, Prod.mk.injEq] at h
          obtain ⟨-, -, rfl, rfl⟩ := h
          rfl
        · simp at h
    · simp only [Except.ok.injEq, Prod.mk.injEq] at h
      obtain ⟨-, -, rfl, rfl⟩ := h
      rfl

theorem getLoop_rest_suffix (maxSize maxLength overhead : Nat)
    (queue : List RequestState) :
    ∀ (mtp : MTProtoState) (buffer : List Nat) (batch : List RequestState)
      (size : Nat) (mtp' : MTProtoState) (buffer' : List Nat)
      (batch' rest : List RequestState),
      getLoop maxSize maxLength overhead mtp queue buffer batch size =
        .ok (mtp', buffer', batch', rest) →
      rest.IsSuffix queue := by
  induction queue with
  | nil =>
    intro mtp buffer batch size mtp' buffer' batch' rest h
    simp only [getLoop, Except.ok.injEq, Prod.mk.injEq] at h
    obtain ⟨-, -, -, rfl⟩ := h
    exact List.nil_suffix
  | cons s tail ih =>
    intro mtp buffer batch size mtp' buffer' batch' rest h
    simp only [getLoop] at h
    split at h
    · split at h
      · exact (ih _ _ _ _ _ _ _ _ h).trans (List.suffix_cons s tail)
      · split at h
        · simp only [Except.ok.injEq, Prod.mk.injEq] at h
          obtain ⟨-, -, -, rfl⟩ := h
          exact List.suffix_refl _
        · simp at h
    · simp only [Except.ok.injEq, Prod.mk.injEq] at h
      obtain ⟨-, -, -, rfl⟩ := h
      exact List.suffix_refl _

theorem getLoop_batch_extends (maxSize maxLength overhead : Nat)
    (queue : List RequestState) :
    ∀ (mtp : MTProtoState) (buffer : List Nat) (batch : List RequestState)
      (size : Nat) (mtp' : MTProtoState) (buffer' : List Nat)
      (batch' rest : List RequestState),
      getLoop maxSize maxLength overhead mtp queue buffer batch size =
        .ok (mtp', buffer', batch', rest) →
      ∃ ext, batch' = batch ++ ext := by
  induction queue with
  | nil =>
    intro mtp buffer batch size mtp' buffer' batch' rest h
    simp only [getLoop, Except.ok.injEq, Prod.mk.injEq] at h
    obtain ⟨-, -, rfl, -⟩ := h
    exact ⟨[], by simp⟩
  | cons s tail ih =>
    intro mtp buffer batch size mtp' buffer' batch' rest h
    simp only [getLoop] at h
    split at h
    · split at h
      · obtain ⟨ext, hext⟩ := ih _ _ _ _ _ _ _ _ h
        exact ⟨_ :: ext, by simpa using hext⟩
      · split at h
        · simp only [Except.ok.injEq, Prod.mk.injEq] at h
          obtain ⟨-, -, rfl, -⟩ := h
          exact ⟨[], by simp⟩
        · simp at h
    · simp only [Except.ok.injEq, Prod.mk.injEq] at h
      obtain ⟨-, -, rfl, -⟩ := h
      exact ⟨[], by simp⟩

/-- Every queued entry is individually within the size limit. -/
def allFit (maxSize overhead : Nat) (queue : List RequestState) : Prop :=
  ∀ s ∈ queue, s.data.length + overhead ≤ maxSize

theorem getLoop_allFit_ok (maxSize maxLength overhead : Nat)
    (queue : List RequestState) :
    ∀ (mtp : MTProtoState) (buffer : List Nat) (batch : List RequestState)
      (size : Nat),
      allFit maxSize overhead queue →
      (batch = [] → size = 0) →
      ∃ r, getLoop maxSize maxLength overhead mtp queue buffer batch size =
        .ok r := by
  induction queue with
  | nil =>
    intro mtp buffer batch size hfit hempty
    exact ⟨_, rfl⟩
  | cons s tail ih =>
    intro mtp buffer batch size hfit hempty
    simp only [getLoop]
    split
    case isTrue hlen =>
      split
      case isTrue hsz =>
        exact ih _ _ _ _ (fun x hx => hfit x (List.mem_cons_of_mem s hx))
          (by simp)
      case isFalse hsz =>
        split
        case isTrue hne => exact ⟨_, rfl⟩
        case isFalse hne =>
          exfalso
          have hb : batch = [] := by
            cases batch with
            | nil => rfl
            | cons a b => simp at hne
          have : s.data.length + overhead ≤ maxSize :=
            hfit s (List.mem_cons_self s tail)
          have : size + s.data.length + overhead ≤ maxSize := by
            rw [hempty hb]; omega
          omega
    case isFalse hlen => exact ⟨_, rfl⟩

end BotTg

namespace BotTg

theorem map_payload_containerId (c : Nat) (l : List RequestState) :
    (l.map fun s => { s with containerId := some c }).map payloadOf =
      l.map payloadOf := by
  rw [List.map_map]
  rfl

theorem get_eq_of_getLoop (maxSize maxLength overhead ctorId : Nat)
    (mtp m2 : MTProtoState) (queue : List RequestState) (buf : List Nat)
    (b rest : List RequestState)
    (h : getLoop maxSize maxLength overhead mtp queue [] [] 0 =
      .ok (m2, buf, b, rest)) :
    MessagePacker.get maxSize maxLength overhead ctorId mtp queue =
      if b.length = 0 then .ok (m2, none, rest)
      else if 1 < b.length then
        .ok (⟨m2.nextId + 1⟩,
          some (b.map fun s => { s with containerId := some m2.nextId },
            [m2.nextId, (containerHeader ctorId b.length ++ buf).length] ++
              (containerHeader ctorId b.length ++ buf)),
          rest)
      else .ok (m2, some (b, buf), rest) := by
  unfold MessagePacker.get
  rw [h]
  rfl

theorem get_payloads (maxSize maxLength overhead ctorId : Nat)
    (mtp : MTProtoState) (queue : List RequestState)
    (mtp' : MTProtoState) (batch : List RequestState) (data : List Nat)
    (rest : List RequestState)
    (h : MessagePacker.get maxSize maxLength overhead ctorId mtp queue =
      .ok (mtp', some (batch, data), rest)) :
    batch.map payloadOf ++ rest.map payloadOf = queue.map payloadOf := by
  obtain ⟨m2, buf, b, hg, hb⟩ :=
    get_ok_batch maxSize maxLength overhead ctorId mtp queue mtp' batch data rest h
  have hpay := getLoop_payloads maxSize maxLength overhead queue mtp [] [] 0
    m2 buf b rest hg
  simp only [List.map_nil, List.nil_append] at hpay
  rcases hb with rfl | ⟨c, rfl⟩
  · exact hpay
  · rw [map_payload_containerId]
    exact hpay

theorem getLoop_ok_batch_nonempty (maxSize maxLength overhead : Nat)
    (mtp : MTProtoState) (s : RequestState) (tail : List RequestState)
    (m2 : MTProtoState) (buf : List Nat) (b rest : List RequestState)
    (h : getLoop maxSize maxLength overhead mtp (s :: tail) [] [] 0 =
      .ok (m2, buf, b, rest))
    (hfit : s.data.length + overhead ≤ maxSize) :
    b ≠ [] := by
  simp only [getLoop] at h
  rw [if_pos (show (([] : List RequestState)).length ≤ maxLength from
    Nat.zero_le _)] at h
  rw [if_pos (show 0 + s.data.length + overhead ≤ maxSize by omega)] at h
  obtain ⟨ext, hext⟩ :=
    getLoop_batch_extends maxSize maxLength overhead tail _ _ _ _ _ _ _ _ h
  subst hext
  simp

theorem get_allFit_progress (maxSize maxLength overhead ctorId : Nat)
    (mtp : MTProtoState) (queue : List RequestState)
    (hfit : allFit maxSize overhead queue) (hne : queue ≠ []) :
    ∃ mtp' batch data rest,
      MessagePacker.get maxSize maxLength overhead ctorId mtp queue =
        .ok (mtp', some (batch, data), rest) ∧
      rest.length < queue.length ∧ allFit maxSize overhead rest ∧
      batch.map payloadOf ++ rest.map payloadOf = queue.map payloadOf := by
  obtain ⟨s, tail, rfl⟩ := List.exists_cons_of_ne_nil hne
  obtain ⟨r, hr⟩ := getLoop_allFit_ok maxSize maxLength overhead (s :: tail)
    mtp [] [] 0 hfit (fun _ => rfl)
  obtain ⟨m2, buf, b, rest⟩ := r
  have hb : b ≠ [] :=
    getLoop_ok_batch_nonempty maxSize maxLength overhead mtp s tail m2 buf b
      rest hr (hfit s (List.mem_cons_self s tail))
  have hpay := getLoop_payloads maxSize maxLength overhead (s :: tail)
    mtp [] [] 0 m2 buf b rest hr
  simp only [List.map_nil, List.nil_append] at hpay
  have hsuf := getLoop_rest_suffix maxSize maxLength overhead (s :: tail)
    mtp [] [] 0 m2 buf b rest hr
  have hlen : rest.length < (s :: tail).length := by
    have hc := congrArg List.length hpay
    simp only [List.length_append, List.length_map] at hc
    have : 0 < b.length := List.length_pos.mpr hb
    omega
  have hfitR : allFit maxSize overhead rest := fun x hx =>
    hfit x (hsuf.subset hx)
  have hq := get_eq_of_getLoop maxSize maxLength overhead ctorId mtp m2
    (s :: tail) buf b rest hr
  rw [if_neg (by simpa using hb)] at hq
  by_cases h1 : 1 < b.length
  · rw [if_pos h1] at hq
    refine ⟨_, _, _, rest, hq, hlen, hfitR, ?_⟩
    rw [map_payload_containerId]
    exact hpay
  · rw [if_neg h1] at hq
    exact ⟨_, _, _, rest, hq, hlen, hfitR, hpay⟩

/-- Repeatedly call `get` until the queue is empty, collecting the
returned batches; `fuel` bounds the number of calls. -/
def drainAll (maxSize maxLength overhead ctorId : Nat) :
    Nat → MTProtoState → List RequestState → Option (List (List RequestState))
  | 0, _, queue => if queue = [] then some [] else none
  | fuel + 1, mtp, queue =>
    if queue = [] then some []
    else
      match MessagePacker.get maxSize maxLength overhead ctorId mtp queue with
      | .ok (mtp', some (batch, _), rest) =>
        (drainAll maxSize maxLength overhead ctorId fuel mtp' rest).map
          (fun bs => batch :: bs)
      | _ => none

theorem drainAll_complete (maxSize maxLength overhead ctorId : Nat)
    (fuel : Nat) :
    ∀ (mtp : MTProtoState) (queue : List RequestState),
      allFit maxSize overhead queue → queue.length ≤ fuel →
      ∃ batches,
        drainAll maxSize maxLength overhead ctorId fuel mtp queue =
          some batches ∧
        batches.flatten.map payloadOf = queue.map payloadOf := by
  induction fuel with
  | zero =>
    intro mtp queue hfit hlen
    have : queue = [] := List.length_eq_zero.mp (Nat.le_zero.mp hlen)
    subst this
    exact ⟨[], by simp [drainAll], by simp⟩
  | succ fuel ih =>
    intro mtp queue hfit hlen
    by_cases hq : queue = []
    · subst hq
      exact ⟨[], by simp [drainAll], by simp⟩
    · obtain ⟨mtp', batch, data, rest, hget, hrl, hfitR, hpay⟩ :=
        get_allFit_progress maxSize maxLength overhead ctorId mtp queue hfit hq
      obtain ⟨bs, hbs, hbspay⟩ := ih mtp' rest hfitR (by omega)
      refine ⟨batch :: bs, ?_, ?_⟩
      · simp only [drainAll, if_neg hq, hget, hbs, Option.map_some']
      · simp only [List.flatten_cons, List.map_append, hbspay]
        rw [hpay]

/-- C6: requests are batched strictly in FIFO order.  First, for any
single `get`, the returned batch followed by the remaining queue carries
exactly the original queue's payloads in order — an entry that would
overflow a non-empty batch is pushed back to the front of the queue, never
reordered or dropped.  Second, for a queue whose entries are all within
the size limit, the concatenation of batches across successive `get` calls
reproduces the original append order. -/
theorem fifo_order_preserved :
    (∀ (maxSize maxLength overhead ctorId : Nat) (mtp : MTProtoState)
       (queue : List RequestState) (mtp' : MTProtoState)
       (batch : List RequestState) (data : List Nat)
       (rest : List RequestState),
      MessagePacker.get maxSize maxLength overhead ctorId mtp queue =
        .ok (mtp', some (batch, data), rest) →
      batch.map payloadOf ++ rest.map payloadOf = queue.map payloadOf) ∧
    (∀ (maxSize maxLength overhead ctorId : Nat) (mtp : MTProtoState)
       (queue : List RequestState),
      allFit maxSize overhead queue →
      ∃ batches,
        drainAll maxSize maxLength overhead ctorId queue.length mtp queue =
          some batches ∧
        batches.flatten.map payloadOf = queue.map payloadOf) :=
  ⟨get_payloads,
   fun maxSize maxLength overhead ctorId mtp queue hfit =>
     drainAll_complete maxSize maxLength overhead ctorId queue.length mtp
       queue hfit (Nat.le_refl _)⟩

/-- Witness for C6 at a concrete input: two single-symbol payloads under
maximum size 10 and overhead 4. -/
theorem fifo_order_preserved_witness :
    ∃ batches,
      drainAll 10 100 4 7 ([mkState [1], mkState [2]].length) ⟨0⟩
          [mkState [1], mkState [2]] = some batches ∧
      batches.flatten.map payloadOf =
        [mkState [1], mkState [2]].map payloadOf :=
  fifo_order_preserved.2 10 100 4 7 ⟨0⟩ [mkState [1], mkState [2]]
    (by unfold allFit; decide)

end BotTg

namespace BotTg

/-- The framed wire bytes of one packed entry, as appended to the running
buffer by the session collaborator when the entry was accepted: the frame
header (assigned sequence id, payload length) followed by the payload. -/
def frameOfState (s : RequestState) : List Nat :=
  [s.msgId.getD 0, s.data.length] ++ s.data

/-- The batch `data` of a `get` result (empty when `get` threw or
returned `null`). -/
def dataOf (r : Except JsError GetResult) : List Nat :=
  match r with
  | .ok (_, some (_, d), _) => d
  | _ => []

theorem getLoop_frames (maxSize maxLength overhead : Nat)
    (queue : List RequestState) :
    ∀ (mtp : MTProtoState) (buffer : List Nat) (batch : List RequestState)
      (size : Nat) (mtp' : MTProtoState) (buffer' : List Nat)
      (batch' rest : List RequestState),
      getLoop maxSize maxLength overhead mtp queue buffer batch size =
        .ok (mtp', buffer', batch', rest) →
      ∃ ext, batch' = batch ++ ext ∧
        buffer' = buffer ++ ext.flatMap frameOfState := by
  induction queue with
  | nil =>
    intro mtp buffer batch size mtp' buffer' batch' rest h
    simp only [getLoop, Except.ok.injEq, Prod.mk.injEq] at h
    obtain ⟨-, rfl, rfl, -⟩ := h
    exact ⟨[], by simp⟩
  | cons s tail ih =>
    intro mtp buffer batch size mtp' buffer' batch' rest h
    simp only [getLoop] at h
    split at h
    · split at h
      · obtain ⟨ext, hb, hbuf⟩ := ih _ _ _ _ _ _ _ _ h
        refine ⟨{ s with msgId := some mtp.nextId } :: ext, ?_, ?_⟩
        · simpa using hb
        · rw [hbuf]
          simp [writeDataAsMessage, frameOfState]
      · split at h
        · simp only [Except.ok.injEq, Prod.mk.injEq] at h
          obtain ⟨-, rfl, rfl, -⟩ := h
          exact ⟨[], by simp⟩
        · simp at h
    · simp only [Except.ok.injEq, Prod.mk.injEq] at h
      obtain ⟨-, rfl, rfl, -⟩ := h
      exact ⟨[], by simp⟩

theorem flatMap_frame_containerId (c : Nat) (l : List RequestState) :
    (l.map fun s => { s with containerId := some c }).flatMap frameOfState =
      l.flatMap frameOfState := by
  rw [List.flatMap_map]
  rfl

/-- C7 counterexample: with two queued single-symbol payloads, the wire
bytes returned for the two-entry batch do not begin with the container
header (constructor id then entry count): the session collaborator wraps
the container payload in a frame of its own, whose header comes first. -/
theorem container_bytes_not_headed_by_ctor :
    (dataOf (MessagePacker.get 100 100 4 7 ⟨0⟩
      [mkState [1], mkState [2]])).take 8 ≠ containerHeader 7 2 := by
  decide

/-- C7 amended: whenever `get` returns a batch with more than one entry,
the returned wire bytes are the container payload framed once more as the
container's own message by the session collaborator; that container
payload begins with the container header — constructor id then entry
count — followed by the concatenated per-entry framed bytes; the
container is assigned its own fresh sequence id `cid` (the session
state's counter moves past it), and every entry of the batch has
`containerId = cid`. -/
theorem container_framing (maxSize maxLength overhead ctorId : Nat)
    (mtp mtp' : MTProtoState) (queue batch : List RequestState)
    (data : List Nat) (rest : List RequestState)
    (h : MessagePacker.get maxSize maxLength overhead ctorId mtp queue =
      .ok (mtp', some (batch, data), rest))
    (hlen : 1 < batch.length) :
    ∃ cid,
      (∀ s ∈ batch, s.containerId = some cid) ∧
      mtp' = ⟨cid + 1⟩ ∧
      data = [cid, (containerHeader ctorId batch.length ++
          batch.flatMap frameOfState).length] ++
        (containerHeader ctorId batch.length ++ batch.flatMap frameOfState) := by
  unfold MessagePacker.get at h
  cases hg : getLoop maxSize maxLength overhead mtp queue [] [] 0 with
  | error e => rw [hg] at h; simp at h
  | ok r =>
    obtain ⟨m2, buf, b, rst⟩ := r
    rw [hg] at h
    simp only at h
    obtain ⟨ext, hbx, hbuf⟩ := getLoop_frames maxSize maxLength overhead
      queue mtp [] [] 0 m2 buf b rst hg
    simp only [List.nil_append] at hbx hbuf
    subst hbx
    split at h
    · simp at h
    · split at h
      case isTrue h1 =>
        simp only [Except.ok.injEq, Prod.mk.injEq, Option.some.injEq] at h
        obtain ⟨h2, ⟨h3, h4⟩, h5⟩ := h
        subst h3
        refine ⟨m2.nextId, ?_, ?_, ?_⟩
        · intro s hs
          obtain ⟨x, hx, rfl⟩ := List.mem_map.mp hs
          rfl
        · rw [← h2]; rfl
        · rw [← h4, hbuf]
          simp only [List.length_map, flatMap_frame_containerId,
            writeDataAsMessage, List.nil_append]
      case isFalse h1 =>
        simp only [Except.ok.injEq, Prod.mk.injEq, Option.some.injEq] at h
        obtain ⟨h2, ⟨h3, h4⟩, h5⟩ := h
        subst h3
        exact absurd hlen h1

/-- Witness for the amended C7 at a concrete input: two single-symbol
payloads batched into one container. -/
theorem container_framing_witness :
    ∃ cid,
      (∀ s ∈ ([{ data := [1], isRequest := true, afterId := none,
                 msgId := some 0, containerId := some 2,
                 outcome := .pending },
               { data := [2], isRequest := true, afterId := none,
                 msgId := some 1, containerId := some 2,
                 outcome := .pending }] : List RequestState),
        s.containerId = some cid) ∧
      (⟨3⟩ : MTProtoState) = ⟨cid + 1⟩ ∧
      ([2, 14, 7, 0, 0, 0, 2, 0, 0, 0, 0, 1, 1, 1, 1, 2] : List Nat) =
        [cid, (containerHeader 7
            (([{ data := [1], isRequest := true, afterId := none,
                  msgId := some 0, containerId := some 2,
                  outcome := .pending },
                { data := [2], isRequest := true, afterId := none,
                  msgId := some 1, containerId := some 2,
                  outcome := .pending }] : List RequestState).length) ++
          ([{ data := [1], isRequest := true, afterId := none,
              msgId := some 0, containerId := some 2,
              outcome := .pending },
            { data := [2], isRequest := true, afterId := none,
              msgId := some 1, containerId := some 2,
              outcome := .pending }] : List RequestState).flatMap
            frameOfState).length] ++
        (containerHeader 7
            (([{ data := [1], isRequest := true, afterId := none,
                  msgId := some 0, containerId := some 2,
                  outcome := .pending },
                { data := [2], isRequest := true, afterId := none,
                  msgId := some 1, containerId := some 2,
                  outcome := .pending }] : List RequestState).length) ++
          ([{ data := [1], isRequest := true, afterId := none,
              msgId := some 0, containerId := some 2,
              outcome := .pending },
            { data := [2], isRequest := true, afterId := none,
              msgId := some 1, containerId := some 2,
              outcome := .pending }] : List RequestState).flatMap
            frameOfState) :=
  container_framing 100 100 4 7 ⟨0⟩ ⟨3⟩ [mkState [1], mkState [2]] _ _ []
    rfl (by decide)

end BotTg
